import Mathlib

/-!
Verification of the conversation-analytics engine of the
`instinto-retailcrm-sync` repository against its natural-language
specification.  The Python sources `analysis_rules.py` and
`behavior_digest.py` are shallowly embedded below: timestamps are modelled
as integer seconds in the configured local timezone, Python floats as exact
rationals, fallible computations as `Option`/`Except`.  Rational values are
manipulated through `mkRat`/`num`/`den` so that every definition evaluates
inside the kernel.
-/

/-- Floor of a rational, computed on the normalized numerator/denominator. -/
def ratFloor (q : ℚ) : ℤ := q.num.fdiv q.den

/-- Product of an integer and a rational, kept kernel-computable. -/
def intMulRat (m : ℤ) (p : ℚ) : ℚ := mkRat (m * p.num) p.den

/-- Python's `round` on an exact rational value: round half to even.
`q - ⌊q⌋ < 1/2` is decided as `2 * (num - ⌊q⌋ * den) < den`. -/
def pyRound (q : ℚ) : ℤ :=
  let fl := ratFloor q
  let rem2 : ℤ := 2 * (q.num - fl * q.den)
  if rem2 < q.den then fl
  else if (q.den : ℤ) < rem2 then fl + 1
  else if fl % 2 = 0 then fl else fl + 1

/-- `_pct` as defined inside `aggregate_manager_summary` (analysis_rules.py
lines 264-270): sort ascending, take index `int(round((n-1)*p))` clamped by
`max(0, min(n-1, .))`; `None` on an empty sample. -/
def pct (values : List ℤ) (p : ℚ) : Option ℤ :=
  if values = [] then none
  else
    let vals := values.insertionSort (· ≤ ·)
    let k : ℤ := max 0 (min ((values.length : ℤ) - 1) (pyRound (intMulRat ((values.length : ℤ) - 1) p)))
    vals[k.toNat]?

/-- `_pct` as defined inside `aggregate_channel_summary` (analysis_rules.py
lines 319-324); textually the same computation repeated. -/
def pctChannel (values : List ℤ) (p : ℚ) : Option ℤ :=
  if values = [] then none
  else
    let vals := values.insertionSort (· ≤ ·)
    let k : ℤ := max 0 (min ((values.length : ℤ) - 1) (pyRound (intMulRat ((values.length : ℤ) - 1) p)))
    vals[k.toNat]?

/-- Modelled from the spec: "sort the sample ascending, index =
`round((n-1) * p)` clamped to `[0, n-1]`" (nearest-rank percentile);
empty samples yield null. -/
def specNearestRank (sample : List ℤ) (p : ℚ) : Option ℤ :=
  if sample = [] then none
  else
    let sorted := sample.insertionSort (· ≤ ·)
    let idx : ℤ := min ((sample.length : ℤ) - 1) (max 0 (pyRound (intMulRat ((sample.length : ℤ) - 1) p)))
    sorted[idx.toNat]?

/-- The behavior-digest snapshot median (behavior_digest.py line 369):
`frs[len(frs) // 2]` on the sorted sample. -/
def digestMedian (frs : List ℤ) : Option ℤ :=
  if frs = [] then none
  else (frs.insertionSort (· ≤ ·))[frs.length / 2]?

/-- The behavior-digest snapshot p90 (behavior_digest.py line 370):
`frs[int(len(frs) * 0.9)]` on the sorted sample. -/
def digestP90 (frs : List ℤ) : Option ℤ :=
  if frs = [] then none
  else (frs.insertionSort (· ≤ ·))[(ratFloor (intMulRat (frs.length : ℤ) (mkRat 9 10))).toNat]?

/-! ## Business-hours clock (`_business_seconds_between`, analysis_rules.py 43-82)

A timezone-converted `datetime` is modelled as an integer count of seconds
in the local timezone; `date()` is floor division by 86400 and
`datetime.combine(day, t)` is `86400 * day + t` with `t` the
seconds-of-day of the `time` value. -/

/-- `date()` of a local timestamp. -/
def dateOf (t : ℤ) : ℤ := t.fdiv 86400

/-- One iteration of the day-walking loop: the clipped overlap of
`[s, e]` with the work window of day `day`, counted only when positive. -/
def daySeconds (s e ws we day : ℤ) : ℤ :=
  let windowStart := 86400 * day + ws
  let windowEnd := 86400 * day + we
  let segStart := max s windowStart
  let segEnd := min e windowEnd
  if segStart < segEnd then segEnd - segStart else 0

/-- The `while cur_day <= last_day` loop, running for `n` days starting at
`day`. -/
def businessLoop (s e ws we day : ℤ) : ℕ → ℤ
  | 0 => 0
  | n + 1 => daySeconds s e ws we day + businessLoop s e ws we (day + 1) n

/-- `_business_seconds_between`: `None` when `end < start`, a raised
`ValueError` when the work window does not satisfy `ws < we`, otherwise the
sum of the daily in-window overlaps from `start.date()` to `end.date()`. -/
def businessSecondsBetween (s e ws we : ℤ) : Except String (Option ℤ) :=
  if e < s then .ok none
  else if we ≤ ws then .error "work hours that cross midnight are not supported"
  else .ok (some (businessLoop s e ws we (dateOf s) ((dateOf e - dateOf s).toNat + 1)))

/-! ## Text signals (regex predicates of analysis_rules.py lines 85-89)

Python `re.search` over the case-folded text is modelled by explicit
scanning with word boundaries: a word character is an ASCII alphanumeric,
an underscore or a Cyrillic letter, matching Python's unicode `\w` on the
alphabets these patterns use. -/

/-- Case folding for ASCII and Cyrillic letters (`re.IGNORECASE`). -/
def lowerChar (c : Char) : Char :=
  if 'A' ≤ c ∧ c ≤ 'Z' then Char.ofNat (c.toNat + 32)
  else if 0x410 ≤ c.toNat ∧ c.toNat ≤ 0x42F then Char.ofNat (c.toNat + 0x20)
  else if c.toNat = 0x401 then Char.ofNat 0x451
  else c

/-- Python `\w` over the alphabets occurring in the patterns. -/
def isWordChar (c : Char) : Bool :=
  c.isAlphanum || c = '_' || (0x400 ≤ c.toNat && c.toNat < 0x500)

/-- `\b` between two neighbouring positions (string edges are non-word). -/
def bAt (a b : Option Char) : Bool :=
  (a.any isWordChar) != (b.any isWordChar)

/-- A word-bounded occurrence of `w` starting at the head of `l`,
with `prev` the character just before (none at the string start). -/
def boundedMatchAt (w : List Char) (prev : Option Char) (l : List Char) : Bool :=
  w.isPrefixOf l && bAt prev w.head? &&
  (match l.drop w.length with
   | [] => bAt w.getLast? none
   | c :: _ => bAt w.getLast? (some c))

def containsBoundedAux (w : List Char) : Option Char → List Char → Bool
  | _, [] => false
  | prev, c :: cs => boundedMatchAt w prev (c :: cs) || containsBoundedAux w (some c) cs

/-- `re.search(r"\b<w>\b", s, re.IGNORECASE)` for a literal `w`. -/
def containsWordCI (w : String) (s : String) : Bool :=
  containsBoundedAux w.data none (s.data.map lowerChar)

/-- A word-bounded occurrence of `w1`, one or more whitespace, `w2`. -/
def phraseMatchAt (w1 w2 : List Char) (prev : Option Char) (l : List Char) : Bool :=
  w1.isPrefixOf l && bAt prev w1.head? &&
  (let rest1 := l.drop w1.length
   let rest2 := rest1.dropWhile Char.isWhitespace
   decide (rest2.length < rest1.length) && w2.isPrefixOf rest2 &&
   (match rest2.drop w2.length with
    | [] => bAt w2.getLast? none
    | c :: _ => bAt w2.getLast? (some c)))

def containsPhraseAux (w1 w2 : List Char) : Option Char → List Char → Bool
  | _, [] => false
  | prev, c :: cs => phraseMatchAt w1 w2 prev (c :: cs) || containsPhraseAux w1 w2 (some c) cs

/-- `re.search(r"\b<w1>\s+<w2>\b", s, re.IGNORECASE)`. -/
def containsPhraseCI (w1 w2 : String) (s : String) : Bool :=
  containsPhraseAux w1.data w2.data none (s.data.map lowerChar)

/-- `\?\s*$`: a question mark followed only by whitespace to the end. -/
def endsWithQuestion (s : String) : Bool :=
  match s.data.reverse.dropWhile Char.isWhitespace with
  | [] => false
  | c :: _ => c = '?'

/-- `_RE_HAS_QUESTION`. -/
def reHasQuestion (t : String) : Bool :=
  endsWithQuestion t || containsWordCI "какой" t || containsWordCI "какая" t ||
  containsWordCI "какие" t || containsWordCI "что" t || containsWordCI "сколько" t ||
  containsWordCI "когда" t || containsWordCI "где" t

/-- `_RE_PRICE_INTENT`. -/
def rePriceIntent (t : String) : Bool :=
  containsWordCI "цена" t || containsPhraseCI "сколько" "стоит" t ||
  containsWordCI "прайс" t || containsWordCI "стоимость" t

/-- `_RE_BUY_INTENT`. -/
def reBuyIntent (t : String) : Bool :=
  containsWordCI "хочу" t || containsWordCI "купить" t || containsWordCI "куплю" t ||
  containsWordCI "закажу" t || containsWordCI "заказать" t ||
  containsWordCI "оформить" t || containsWordCI "оформляем" t

/-- `_RE_AVAIL_INTENT`. -/
def reAvailIntent (t : String) : Bool :=
  containsWordCI "наличие" t || containsWordCI "наличии" t ||
  containsWordCI "есть" t || containsPhraseCI "в" "наличии" t

/-- `_RE_NEXT_STEP`. -/
def reNextStep (t : String) : Bool :=
  containsWordCI "оформим" t || containsWordCI "ссылка" t ||
  containsWordCI "корзина" t || containsWordCI "корзину" t ||
  containsWordCI "оплата" t || containsWordCI "оплатить" t || containsWordCI "доставка" t

/-! ## Per-chat metrics (compute_chat_metrics, analysis_rules.py 109-230) -/

/-- A message as consumed by `compute_chat_metrics`: its direction, its
parsed `sentAt` (None when missing or unparseable) and its text. -/
structure AMsg where
  direction : String
  sentAt : Option ℤ
  text : String
deriving DecidableEq

def inboundMsgs (msgs : List AMsg) : List AMsg :=
  msgs.filter (fun m => m.direction = "in")

def outboundMsgs (msgs : List AMsg) : List AMsg :=
  msgs.filter (fun m => m.direction = "out")

/-- `inbound_times`: parseable timestamps of inbound messages, in order. -/
def inboundTimes (msgs : List AMsg) : List ℤ :=
  (inboundMsgs msgs).filterMap (fun m => m.sentAt)

def outboundTimes (msgs : List AMsg) : List ℤ :=
  (outboundMsgs msgs).filterMap (fun m => m.sentAt)

/-- `first_inbound_at = min(inbound_times) if inbound_times else None`. -/
def firstInboundOf (inT : List ℤ) : Option ℤ := inT.min?

/-- The `for t in sorted(outbound_times): if t >= first_inbound_at` loop. -/
def firstOutboundOf (inT outT : List ℤ) : Option ℤ :=
  match inT.min? with
  | none => none
  | some fi => (outT.insertionSort (· ≤ ·)).find? (fun t => decide (fi ≤ t))

/-- `unanswered_inbound` (analysis_rules.py 183-190): guarded count of
inbound times after the `cutoff = last_outbound_at`. -/
def unansweredOf (inT outT : List ℤ) : ℕ :=
  match inT.max? with
  | none => 0
  | some li =>
    match outT.max? with
    | none => inT.length
    | some lo => if lo < li then (inT.filter (fun t => decide (lo < t))).length else 0

def firstInboundAt (msgs : List AMsg) : Option ℤ := firstInboundOf (inboundTimes msgs)

def firstOutboundAt (msgs : List AMsg) : Option ℤ :=
  firstOutboundOf (inboundTimes msgs) (outboundTimes msgs)

def unansweredInbound (msgs : List AMsg) : ℕ :=
  unansweredOf (inboundTimes msgs) (outboundTimes msgs)

/-- The spec's description of `unanswered_inbound`: the count of inbound
messages with a parseable timestamp strictly after `last_outbound_at`, or
all of them when there is no outbound timestamp at all. -/
def unansweredSpec (msgs : List AMsg) : ℕ :=
  match (outboundTimes msgs).max? with
  | none => (inboundTimes msgs).length
  | some lo => ((inboundTimes msgs).filter (fun t => decide (lo < t))).length

/-- Advice text of the no-reply rule (analysis_rules.py line 195). -/
def adviceNoReply : String :=
  "Нет ответа менеджера на входящие сообщения — проверьте распределение/уведомления и дайте быстрый первый ответ."

/-- Advice text of the slow-first-reply rule (line 197). -/
def adviceSlowReply : String :=
  "Долгий первый ответ — сократите время реакции (цель: ≤10 минут) и используйте быстрый шаблон приветствия+уточнение."

/-- Advice text of the unanswered-inbound rule (line 199). -/
def adviceFollowUp : String :=
  "Есть непрочитанные/неотвеченные входящие — сделайте follow-up и зафиксируйте следующий шаг (ссылка/оформление/варианты)."

/-- Advice text of the few-questions content rule (line 206). -/
def adviceFewQuestions : String :=
  "Мало уточняющих вопросов — добавьте 1–2 вопроса по потребности/параметрам, прежде чем давать финальный оффер."

/-- Advice text of the intent-without-next-step content rule (line 210). -/
def adviceNoNextStep : String :=
  "Клиент проявляет интерес (цена/наличие/хочу), но нет явного next step — предложите вариант и завершите действием: ссылка/оформление/доставка/оплата."

/-- The `seen`-set de-duplication of the advice list (lines 213-214),
keeping first occurrences in order. -/
def dedupFirstAux : List String → List String → List String
  | _, [] => []
  | seen, a :: rest =>
    if a ∈ seen then dedupFirstAux seen rest
    else a :: dedupFirstAux (a :: seen) rest

def dedupFirst (l : List String) : List String := dedupFirstAux [] l

/-- `" \n".join([str(m.get("text") or "") for m in outbound][:6])`. -/
def textOut6 (msgs : List AMsg) : String :=
  String.intercalate " \n" (((outboundMsgs msgs).map (fun m => m.text)).take 6)

def textIn6 (msgs : List AMsg) : String :=
  String.intercalate " \n" (((inboundMsgs msgs).map (fun m => m.text)).take 6)

/-- `first_response_sec` (lines 172-181): business-clock elapsed time from
the first inbound to the first qualifying outbound, `None` when either is
missing; a bad work window propagates as a configuration error. -/
def firstResponseSecE (msgs : List AMsg) (ws we : ℤ) : Except String (Option ℤ) :=
  match firstInboundAt msgs, firstOutboundAt msgs with
  | some a, some b => businessSecondsBetween a b ws we
  | _, _ => .ok none

/-- The ordered advice rule list (lines 192-214) over the derived
per-chat components. -/
def adviceCore (inCount outCount : ℕ) (frSec : Option ℤ) (unanswered : ℕ)
    (tOut tIn : String) (slowSec : ℤ) : List String :=
  dedupFirst (
    (if 0 < inCount ∧ outCount = 0 then [adviceNoReply] else []) ++
    (match frSec with
     | some v => if slowSec < v then [adviceSlowReply] else []
     | none => []) ++
    (if 0 < unanswered then [adviceFollowUp] else []) ++
    (if 0 < inCount ∧ 0 < outCount ∧ reHasQuestion tOut = false then [adviceFewQuestions] else []) ++
    (if 0 < inCount ∧ 0 < outCount ∧
        (rePriceIntent tIn || reBuyIntent tIn || reAvailIntent tIn) = true ∧
        reNextStep tOut = false
     then [adviceNoNextStep] else []))

/-- The advice computation of `compute_chat_metrics`, assembled from the
per-chat components exactly as lines 147-214 compute them. -/
def computeChatAdvice (msgs : List AMsg) (ws we slowSec : ℤ) : Except String (List String) :=
  match firstResponseSecE msgs ws we with
  | .error msg => .error msg
  | .ok frSec =>
    .ok (adviceCore (inboundMsgs msgs).length (outboundMsgs msgs).length frSec
      (unansweredInbound msgs) (textOut6 msgs) (textIn6 msgs) slowSec)

/-! ## Redaction (`_redact_text`, behavior_digest.py 77-90)

Each `re.sub` is modelled by a left-to-right scan over the characters; a
matcher returns the length of the (leftmost, greedy, boundary-respecting)
match starting at the current position, given the previous original
character for the `\b` checks. -/

/-- Case-insensitive literal prefix test (`re.IGNORECASE`). -/
def ciPrefix (pat : List Char) (l : List Char) : Bool :=
  pat.isPrefixOf ((l.take pat.length).map lowerChar)

/-- `_RE_URL = https?://\S+`. -/
def matchUrl (_prev : Option Char) (rest : List Char) : Option ℕ :=
  if ciPrefix "https://".data rest then
    let k := ((rest.drop 8).takeWhile (fun c => !c.isWhitespace)).length
    if 0 < k then some (8 + k) else none
  else if ciPrefix "http://".data rest then
    let k := ((rest.drop 7).takeWhile (fun c => !c.isWhitespace)).length
    if 0 < k then some (7 + k) else none
  else none

/-- The local-part class `[\w.\-+]` of `_RE_EMAIL`. -/
def emailLocalClass (c : Char) : Bool :=
  isWordChar c || c = '.' || c = '-' || c = '+'

/-- The domain class `[\w.\-]` of `_RE_EMAIL`. -/
def emailDomClass (c : Char) : Bool :=
  isWordChar c || c = '.' || c = '-'

/-- Backtracking search for the split `[\w.\-]+ \. \w+` of the email
domain: the dot position is tried from the top downwards, exactly as the
greedy first group backtracks; returns the consumed length after the `@`.
The trailing `\b` holds automatically because the `\w+` run is maximal. -/
def findDotSplit (afterAt : List Char) : ℕ → Option ℕ
  | 0 => none
  | p + 1 =>
    match afterAt.drop (p + 1) with
    | '.' :: tail =>
      let q := (tail.takeWhile isWordChar).length
      if 0 < q then some ((p + 1) + 1 + q) else findDotSplit afterAt p
    | _ => findDotSplit afterAt p

/-- `_RE_EMAIL = \b[\w.\-+]+@[\w.\-]+\.\w+\b`. -/
def matchEmail (prev : Option Char) (rest : List Char) : Option ℕ :=
  match rest with
  | [] => none
  | c :: _ =>
    if bAt prev (some c) = false then none
    else
      let L := (rest.takeWhile emailLocalClass).length
      if L = 0 then none
      else
        match rest.drop L with
        | '@' :: afterAt =>
          let M := (afterAt.takeWhile emailDomClass).length
          match findDotSplit afterAt (M - 1) with
          | some dq => some (L + 1 + dq)
          | none => none
        | _ => none

/-- `_RE_LONG_DIGITS = \b\d{5,}\b`: a word-bounded maximal digit run of
length at least 5 (no shorter backtrack can restore the trailing `\b`). -/
def matchDigits (prev : Option Char) (rest : List Char) : Option ℕ :=
  match rest with
  | [] => none
  | c :: _ =>
    if c.isDigit && !(prev.any isWordChar) then
      let D := (rest.takeWhile Char.isDigit).length
      if 5 ≤ D && !(((rest.drop D).head?).any isWordChar) then some D else none
    else none

/-- The class `[\d\s\-()]` of `_RE_PHONE`. -/
def phoneClass (c : Char) : Bool :=
  c.isDigit || c.isWhitespace || c = '-' || c = '(' || c = ')'

/-- Greedy-then-backtrack search for the end of `[\d\s\-()]{7,}\b`:
`k + 1` characters of the class run are kept, largest first, until the
trailing boundary holds; at least 7 are required. -/
def findPhoneEnd (rest : List Char) (pre : ℕ) : ℕ → Option ℕ
  | 0 => none
  | k + 1 =>
    if k + 1 < 7 then none
    else if bAt ((rest.drop (pre + k)).head?) ((rest.drop (pre + k + 1)).head?) then
      some (pre + k + 1)
    else findPhoneEnd rest pre k

/-- `_RE_PHONE = \b\+?\d[\d\s\-()]{7,}\b`. -/
def matchPhone (prev : Option Char) (rest : List Char) : Option ℕ :=
  match rest with
  | [] => none
  | '+' :: c2 :: _ =>
    if c2.isDigit && bAt prev (some '+') then
      findPhoneEnd rest 2 (((rest.drop 2).takeWhile phoneClass).length)
    else none
  | c :: _ =>
    if c.isDigit && bAt prev (some c) then
      findPhoneEnd rest 1 (((rest.drop 1).takeWhile phoneClass).length)
    else none

/-- `re.sub`: scan left to right, replace each leftmost match and resume
after it; the fuel starts at the string length, which every step consumes
at least one of. -/
def subScan (matcher : Option Char → List Char → Option ℕ) (repl : List Char) :
    ℕ → Option Char → List Char → List Char
  | 0, _, rest => rest
  | _ + 1, _, [] => []
  | fuel + 1, prev, c :: cs =>
    match matcher prev (c :: cs) with
    | some n =>
      repl ++ subScan matcher repl fuel (((c :: cs).take n).getLast?) ((c :: cs).drop n)
    | none => c :: subScan matcher repl fuel (some c) cs

def pySub (matcher : Option Char → List Char → Option ℕ) (repl : String) (s : String) : String :=
  String.mk (subScan matcher repl.data s.data.length none s.data)

/-- `_redact_text` (behavior_digest.py 83-90): URL, email, long-digit and
phone substitution, newline flattening, strip, truncation to 220 chars. -/
def redactText (s : String) : String :=
  let s1 := pySub matchUrl "[link]" s
  let s2 := pySub matchEmail "[email]" s1
  let s3 := pySub matchDigits "***" s2
  let s4 := pySub matchPhone "***" s3
  let s5 := String.mk (s4.data.map (fun c => if c = '\n' then ' ' else c))
  let s6 := String.mk (((s5.data.dropWhile Char.isWhitespace).reverse.dropWhile Char.isWhitespace).reverse)
  String.mk (s6.data.take 220)

/-- Whether the character list contains `n` consecutive decimal digits. -/
def hasDigitRun (n : ℕ) : List Char → Bool
  | [] => decide (n = 0)
  | c :: cs => decide (n ≤ ((c :: cs).takeWhile Char.isDigit).length) || hasDigitRun n cs

/-! ## Behavior digest per-chat features and example candidates
(behavior_digest.py 109-165, 252-359, 494-504) -/

/-- ASCII upper casing of a string (`str.upper` on the type labels). -/
def upperChar (c : Char) : Char :=
  if 'a' ≤ c ∧ c ≤ 'z' then Char.ofNat (c.toNat - 32) else c

def strUpper (s : String) : String := String.mk (s.data.map upperChar)

def strLower (s : String) : String := String.mk (s.data.map lowerChar)

/-- A `Msg` row of the digest (behavior_digest.py 109-118). -/
structure DMsg where
  sentAt : Option ℤ
  direction : String
  managerId : String
  messageType : String
  authorType : String
  text : String
deriving DecidableEq

/-- `_is_manager_msg`. -/
def isManagerMsg (m : DMsg) : Bool := m.direction = "out"

/-- `_is_customer_msg`. -/
def isCustomerMsg (m : DMsg) : Bool :=
  m.direction = "in" && strLower m.authorType = "customer"

/-- `_is_textish`. -/
def isTextish (m : DMsg) : Bool :=
  ["TEXT", "COMMAND", "ORDER", "PRODUCT", "FILE", "AUDIO", "IMAGE", ""].contains
    (strUpper m.messageType)

/-- `_chat_snippet` (behavior_digest.py 152-165): first qualifying redacted
customer and manager texts. -/
def chatSnippetAux : List DMsg → String → String → String × String
  | [], i, o => (i, o)
  | m :: rest, i, o =>
    let i2 := if i = "" ∧ isCustomerMsg m = true ∧ isTextish m = true ∧ m.text ≠ ""
      then redactText m.text else i
    let o2 := if o = "" ∧ isManagerMsg m = true ∧ isTextish m = true ∧ m.text ≠ ""
      then redactText m.text else o
    if i2 ≠ "" ∧ o2 ≠ "" then (i2, o2) else chatSnippetAux rest i2 o2

def chatSnippet (msgs : List DMsg) : String × String := chatSnippetAux msgs "" ""

/-- `_count_questions` (behavior_digest.py 142-149). -/
def leadWordAt (w : List Char) (prev : Option Char) (l : List Char) : Bool :=
  (match prev with | none => true | some p => p.isWhitespace) && w.isPrefixOf l &&
  (match l.drop w.length with | [] => true | c :: _ => !isWordChar c)

def leadAnyAux (ws : List (List Char)) : Option Char → List Char → Bool
  | _, [] => false
  | prev, c :: cs => ws.any (fun w => leadWordAt w prev (c :: cs)) || leadAnyAux ws (some c) cs

def leadQuestionWords : List String :=
  ["что", "как", "какой", "какая", "какие", "сколько", "когда", "куда", "зачем", "почему"]

/-- `re.search(r"(^|\s)(что|как|...)\b", text, re.IGNORECASE)`. -/
def leadQuestionSearch (t : String) : Bool :=
  leadAnyAux (leadQuestionWords.map (fun w => w.data)) none (t.data.map lowerChar)

def countQuestions (t : String) : ℕ :=
  (t.data.filter (fun c => c = '?')).length + (if leadQuestionSearch t then 1 else 0)

/-- `_KW_INTENT` word list. -/
def kwIntentWords : List String :=
  ["цена", "стоимост", "сколько", "налич", "размер", "доставк", "оплат",
   "адрес", "заказ", "оформ", "хочу", "купить"]

def kwIntent (t : String) : Bool := kwIntentWords.any (fun w => containsWordCI w t)

/-- `_KW_NEXTSTEP` word list; the pattern also fires on any `?`. -/
def kwNextStepWords : List String :=
  ["оформим", "оформляю", "заказ", "доставка", "адрес", "самовывоз", "оплат",
   "ссылк", "подтвердите", "куда отправить", "какой размер", "какая модель"]

def kwNextStep (t : String) : Bool :=
  kwNextStepWords.any (fun w => containsWordCI w t) || t.data.contains '?'

/-- `responded = any(_is_manager_msg(m) and _is_textish(m) for m in ms)`. -/
def respondedB (ms : List DMsg) : Bool := ms.any (fun m => isManagerMsg m && isTextish m)

def managerTexts (ms : List DMsg) : List String :=
  (ms.filter (fun m => isManagerMsg m && isTextish m && m.text != "")).map (fun m => m.text)

def customerTexts (ms : List DMsg) : List String :=
  (ms.filter (fun m => isCustomerMsg m && isTextish m && m.text != "")).map (fun m => m.text)

/-- `questions = sum(_count_questions(t) for t in manager_texts)`. -/
def questionsOf (ms : List DMsg) : ℕ := ((managerTexts ms).map countQuestions).sum

/-- The `for m in reversed(ms)` search for the last manager text. -/
def lastOutText (ms : List DMsg) : String :=
  match ms.reverse.find? (fun m => isManagerMsg m && isTextish m && m.text != "") with
  | some m => m.text
  | none => ""

/-- `next_step = bool(last_out and _KW_NEXTSTEP.search(last_out))`. -/
def nextStepB (ms : List DMsg) : Bool :=
  lastOutText ms != "" && kwNextStep (lastOutText ms)

/-- `high_intent = any(_KW_INTENT.search(t) for t in customer_texts)`. -/
def highIntentB (ms : List DMsg) : Bool := (customerTexts ms).any kwIntent

/-- The per-chat inputs of the example-candidate logic: the chat id, the
`first_response_sec` stored in `chats_raw`, the no-reply flag and the
sorted message list. -/
structure ChatRow where
  cid : String
  frStored : Option ℤ
  noReplyFlag : Bool
  msgs : List DMsg
deriving DecidableEq

/-- The `cand_good` append condition and entry (behavior_digest.py 358-359). -/
def goodCand (c : ChatRow) : Option (String × ℤ × String × String) :=
  if respondedB c.msgs = true ∧ nextStepB c.msgs = true ∧ 1 ≤ questionsOf c.msgs then
    match c.frStored with
    | some fr =>
      if 0 < fr ∧ fr ≤ 600 then
        some (c.cid, 600 - fr, (chatSnippet c.msgs).1, (chatSnippet c.msgs).2)
      else none
    | none => none
  else none

/-- The `cand_slow` append condition and entry (behavior_digest.py 352-355). -/
def slowCand (c : ChatRow) : Option (String × ℤ × String × String) :=
  match c.frStored with
  | some fr =>
    if 0 < fr then
      if 1800 ≤ fr then some (c.cid, fr, (chatSnippet c.msgs).1, (chatSnippet c.msgs).2)
      else none
    else none
  | none => none

/-- Contribution of a chat to the per-manager first-reply sample
(behavior_digest.py 287-289): only a present, strictly positive value. -/
def sampleContrib (fr : Option ℤ) : List ℤ :=
  match fr with
  | some v => if 0 < v then [v] else []
  | none => []

def firstReplySample (l : List (Option ℤ)) : List ℤ := (l.map sampleContrib).flatten

def candGoodList (l : List ChatRow) : List (String × ℤ × String × String) :=
  l.filterMap goodCand

def candSlowList (l : List ChatRow) : List (String × ℤ × String × String) :=
  l.filterMap slowCand

/-- The descending ranking relation of `pick_top` (`key=x[1], reverse=True`). -/
def scoreGE (a b : String × ℤ × String × String) : Prop := b.2.1 ≤ a.2.1

instance : DecidableRel scoreGE := fun a b => inferInstanceAs (Decidable (b.2.1 ≤ a.2.1))

instance : IsTotal (String × ℤ × String × String) scoreGE :=
  ⟨fun a b => le_total b.2.1 a.2.1⟩

instance : IsTrans (String × ℤ × String × String) scoreGE :=
  ⟨fun _ _ _ h1 h2 => le_trans h2 h1⟩

/-- `pick_top` with `reverse=True` (behavior_digest.py 494-499): sort by
the score descending and keep the first three. -/
def pickTop3 (items : List (String × ℤ × String × String)) :
    List (String × ℤ × String × String) :=
  (items.insertionSort scoreGE).take 3

def topGood (l : List ChatRow) : List (String × ℤ × String × String) :=
  pickTop3 (candGoodList l)

/-! ## Weekly delta baseline (behavior_digest.py 441-478) -/

/-- A row of `history_behavior_managers`: manager key, parsed `run_ts`
(None when unparseable) and the numeric fields after `_to_float`. -/
structure HistRow where
  mid : String
  ts : Option ℤ
  vals : List (String × Option ℚ)
deriving DecidableEq

/-- The baseline-selection loop (behavior_digest.py 445-454), viewed for a
single manager key: rows with no timestamp or `ts > cutoff` are skipped,
and a later strictly greater timestamp replaces the current best. -/
def baselineStep (cutoff : ℤ) (mid : String) (acc : Option HistRow) (r : HistRow) :
    Option HistRow :=
  match r.ts with
  | none => acc
  | some ts =>
    if cutoff < ts then acc
    else if r.mid = mid then
      match acc with
      | none => some r
      | some b =>
        match b.ts with
        | some bts => if bts < ts then some r else acc
        | none => some r
    else acc

def selectBaseline (rows : List HistRow) (cutoff : ℤ) (mid : String) : Option HistRow :=
  rows.foldl (baselineStep cutoff mid) none

def lookupVal (r : HistRow) (k : String) : Option ℚ :=
  match r.vals.lookup k with
  | some v => v
  | none => none

/-- Python `round(x, 4)` on an exact value. -/
def roundTo4 (x : ℚ) : ℚ := mkRat (pyRound (intMulRat 10000 x)) 10000

/-- The delta-tracked metric columns (behavior_digest.py 461-471). -/
def deltaKeys : List String :=
  ["response_rate", "no_reply_rate", "avg_questions_per_chat", "next_step_rate",
   "spin_rate", "upsell_rate", "follow_up_gap_rate",
   "median_first_reply_sec", "p90_first_reply_sec"]

/-- One `delta_<k>` cell (behavior_digest.py 472-477): empty (None) unless
both the current and the baseline value parse as numbers. -/
def deltaField (cur : Option ℚ) (b : Option HistRow) (k : String) : Option ℚ :=
  match cur, (match b with | some r => lookupVal r k | none => none) with
  | some c, some bv => some (roundTo4 (c - bv))
  | _, _ => none

/-- The `delta_*` columns of one output row. -/
def deltaRow (curVals : List (String × Option ℚ)) (b : Option HistRow) :
    List (String × Option ℚ) :=
  deltaKeys.map (fun k =>
    (k, deltaField (match curVals.lookup k with | some v => v | none => none) b k))

instance : Std.Antisymm (fun x1 x2 : ℤ => x1 ≤ x2) := ⟨fun h1 h2 => le_antisymm h1 h2⟩

/-! ## Supporting lemmas -/


theorem intMulRat_eq (m : ℤ) (p : ℚ) : intMulRat m p = (m : ℚ) * p := by
  unfold intMulRat
  rw [Rat.mkRat_eq_div]
  push_cast
  rw [mul_div_assoc, Rat.num_div_den]


example : pyRound (mkRat 36 10) = 4 := by decide
example : pyRound (mkRat 5 2) = 2 := by decide
example : pyRound (mkRat 7 2) = 4 := by decide
example : pyRound (mkRat (-3) 2) = -2 := by decide


example : pct [10, 20, 30, 40, 50] (mkRat 1 2) = some 30 := by decide
example : pct [10, 20, 30, 40, 50] (mkRat 9 10) = some 50 := by decide
example : digestP90 [1, 2, 3, 4, 5, 6, 7, 8, 9, 10] = some 10 := by decide
example : specNearestRank [1, 2, 3, 4, 5, 6, 7, 8, 9, 10] (mkRat 9 10) = some 9 := by decide
example : digestMedian [1, 2] = some 2 := by decide
example : specNearestRank [1, 2] (mkRat 1 2) = some 1 := by decide


theorem businessLoop_nonneg (s e ws we day : ℤ) (n : ℕ) :
    0 ≤ businessLoop s e ws we day n := by
  induction n generalizing day with
  | zero => simp [businessLoop]
  | succ n ih =>
    have h := ih (day + 1)
    have h2 : 0 ≤ daySeconds s e ws we day := by
      unfold daySeconds
      dsimp only
      split <;> omega
    simp only [businessLoop]
    omega

theorem Icc_int_insert_bot (a b : ℤ) (h : a ≤ b) :
    Finset.Icc a b = insert a (Finset.Icc (a + 1) b) := by
  ext x
  simp only [Finset.mem_Icc, Finset.mem_insert]
  omega

theorem businessLoop_eq_sum (s e ws we : ℤ) (n : ℕ) (day : ℤ) :
    businessLoop s e ws we day (n + 1) =
      ∑ d ∈ Finset.Icc day (day + n), daySeconds s e ws we d := by
  induction n generalizing day with
  | zero => simp [businessLoop]
  | succ n ih =>
    have hins : Finset.Icc day (day + (n + 1 : ℕ)) =
        insert day (Finset.Icc (day + 1) (day + 1 + n)) := by
      rw [Icc_int_insert_bot]
      · congr 1
        push_cast
        ring_nf
      · push_cast
        omega
    rw [hins, Finset.sum_insert (by simp [Finset.mem_Icc])]
    conv_lhs => rw [businessLoop]
    rw [ih (day + 1)]

theorem dateOf_mono {s e : ℤ} (h : s ≤ e) : dateOf s ≤ dateOf e := by
  unfold dateOf
  rw [Int.fdiv_eq_ediv _ (by norm_num), Int.fdiv_eq_ediv _ (by norm_num)]
  exact Int.ediv_le_ediv (by norm_num) h

theorem businessSeconds_eq_sum (s e ws we : ℤ) (hse : s ≤ e) (hw : ws < we) :
    businessSecondsBetween s e ws we =
      .ok (some (∑ d ∈ Finset.Icc (dateOf s) (dateOf e), daySeconds s e ws we d)) := by
  have hd : dateOf s ≤ dateOf e := dateOf_mono hse
  unfold businessSecondsBetween
  rw [if_neg (by omega), if_neg (by omega)]
  rw [businessLoop_eq_sum]
  have h2 : dateOf s + (((dateOf e - dateOf s).toNat : ℕ) : ℤ) = dateOf e := by omega
  rw [h2]

theorem daySeconds_single (s e ws we : ℤ) (hse : s ≤ e)
    (hd : dateOf s = dateOf e)
    (hs : 86400 * dateOf s + ws ≤ s) (he : e ≤ 86400 * dateOf s + we) :
    ∑ d ∈ Finset.Icc (dateOf s) (dateOf e), daySeconds s e ws we d = e - s := by
  rw [← hd, Finset.Icc_self, Finset.sum_singleton]
  unfold daySeconds
  dsimp only
  split <;> omega

theorem daySeconds_outside (s e ws we : ℤ)
    (h : ∀ d, min e (86400 * d + we) ≤ max s (86400 * d + ws)) :
    ∑ d ∈ Finset.Icc (dateOf s) (dateOf e), daySeconds s e ws we d = 0 := by
  apply Finset.sum_eq_zero
  intro d _
  have hd := h d
  unfold daySeconds
  dsimp only
  split <;> omega

theorem daySeconds_cross_midnight (s e ws we : ℤ)
    (hws : 0 ≤ ws) (hwe : we ≤ 86400)
    (hd : dateOf e = dateOf s + 1)
    (hs1 : 86400 * dateOf s + ws ≤ s) (hs2 : s ≤ 86400 * dateOf s + we)
    (he1 : 86400 * dateOf e + ws ≤ e) (he2 : e ≤ 86400 * dateOf e + we) :
    ∑ d ∈ Finset.Icc (dateOf s) (dateOf e), daySeconds s e ws we d =
      (86400 * dateOf s + we - s) + (e - (86400 * dateOf e + ws)) := by
  rw [hd, Icc_int_insert_bot _ _ (by omega), Finset.Icc_self,
    Finset.sum_insert (by simp), Finset.sum_singleton]
  unfold daySeconds
  dsimp only
  rw [hd] at he1 he2
  split <;> split <;> omega

theorem daySeconds_eq_posPart (s e ws we d : ℤ) :
    daySeconds s e ws we d =
      max 0 (min e (86400 * d + we) - max s (86400 * d + ws)) := by
  unfold daySeconds
  dsimp only
  split <;> omega

theorem daySeconds_sum_posPart (s e ws we : ℤ) :
    ∑ d ∈ Finset.Icc (dateOf s) (dateOf e), daySeconds s e ws we d =
      ∑ d ∈ Finset.Icc (dateOf s) (dateOf e),
        max 0 (min e (86400 * d + we) - max s (86400 * d + ws)) :=
  Finset.sum_congr rfl (fun d _ => daySeconds_eq_posPart s e ws we d)

/-- C1 (amended).  The nearest-rank percentile rule — sorted sample indexed
at `round((n-1)*p)` clamped to `[0, n-1]` — holds for the `_pct` helper of
the manager summary, which the channel summary repeats verbatim, and it
yields the spec's concrete values `percentile([10,20,30,40,50], 0.5) = 30`
and `percentile([10,20,30,40,50], 0.9) = 50`.  The behavior-digest snapshot
computes its median and p90 by a different rule (see the counterexample). -/
theorem percentile_nearest_rank_summaries :
    (∀ (values : List ℤ) (p : ℚ), pct values p = specNearestRank values p) ∧
    (∀ (values : List ℤ) (p : ℚ), pctChannel values p = pct values p) ∧
    pct [10, 20, 30, 40, 50] (mkRat 1 2) = some 30 ∧
    pct [10, 20, 30, 40, 50] (mkRat 9 10) = some 50 ∧
    pctChannel [10, 20, 30, 40, 50] (mkRat 1 2) = some 30 ∧
    pctChannel [10, 20, 30, 40, 50] (mkRat 9 10) = some 50 := by
  refine ⟨?_, fun values p => rfl, by decide, by decide, by decide, by decide⟩
  intro values p
  unfold pct specNearestRank
  by_cases h : values = []
  · rw [if_pos h, if_pos h]
  · rw [if_neg h, if_neg h]
    have hn : 1 ≤ values.length := by
      cases values with
      | nil => exact absurd rfl h
      | cons a l => simp
    have hidx :
        (max 0 (min ((values.length : ℤ) - 1)
          (pyRound (intMulRat ((values.length : ℤ) - 1) p)))).toNat =
        (min ((values.length : ℤ) - 1)
          (max 0 (pyRound (intMulRat ((values.length : ℤ) - 1) p)))).toNat := by
      omega
    dsimp only
    rw [hidx]

/-- C1 (counterexample).  On the sample `[1, .., 10]` the behavior-digest
snapshot p90 is `sorted[int(10 * 0.9)] = sorted[9] = 10`, while the
spec's nearest-rank rule `round((10-1) * 0.9) = round(8.1) = 8` selects
`9`: the digest percentile is not the claimed nearest-rank computation. -/
theorem digest_percentile_counterexample :
    digestP90 [1, 2, 3, 4, 5, 6, 7, 8, 9, 10] = some 10 ∧
    specNearestRank [1, 2, 3, 4, 5, 6, 7, 8, 9, 10] (mkRat 9 10) = some 9 ∧
    digestP90 [1, 2, 3, 4, 5, 6, 7, 8, 9, 10] ≠
      specNearestRank [1, 2, 3, 4, 5, 6, 7, 8, 9, 10] (mkRat 9 10) := by
  refine ⟨by decide, by decide, by decide⟩

/-- C4 (amended).  `elapsed_business_seconds` returns null exactly when
`end < start` — including when the work window is also invalid, because the
`end < start` test runs first — raises the configuration error exactly when
`start <= end` and `work_end <= work_start`, and otherwise returns a
number. -/
theorem business_clock_failure_modes (s e ws we : ℤ) :
    (businessSecondsBetween s e ws we = .ok none ↔ e < s) ∧
    ((∃ msg, businessSecondsBetween s e ws we = .error msg) ↔ s ≤ e ∧ we ≤ ws) ∧
    ((∃ n, businessSecondsBetween s e ws we = .ok (some n)) ↔ s ≤ e ∧ ws < we) := by
  unfold businessSecondsBetween
  by_cases h1 : e < s
  · simp only [if_pos h1]
    refine ⟨by simp [h1], ?_, ?_⟩
    · constructor
      · rintro ⟨msg, hm⟩
        exact Except.noConfusion hm
      · rintro ⟨hse, _⟩
        omega
    · constructor
      · rintro ⟨n, hn⟩
        exact Option.noConfusion (Except.ok.inj hn)
      · rintro ⟨hse, _⟩
        omega
  · by_cases h2 : we ≤ ws
    · simp only [if_neg h1, if_pos h2]
      refine ⟨?_, ?_, ?_⟩
      · constructor
        · intro hm
          exact Except.noConfusion hm
        · intro hlt
          omega
      · constructor
        · intro _
          exact ⟨by omega, h2⟩
        · intro _
          exact ⟨_, rfl⟩
      · constructor
        · rintro ⟨n, hn⟩
          exact Except.noConfusion hn
        · rintro ⟨_, hw⟩
          omega
    · simp only [if_neg h1, if_neg h2]
      refine ⟨?_, ?_, ?_⟩
      · constructor
        · intro hm
          exact Option.noConfusion (Except.ok.inj hm)
        · intro hlt
          omega
      · constructor
        · rintro ⟨msg, hm⟩
          exact Except.noConfusion hm
        · rintro ⟨_, hw⟩
          omega
      · constructor
        · intro _
          exact ⟨by omega, by omega⟩
        · intro _
          exact ⟨_, rfl⟩

/-- C4 (counterexample).  With `end < start` and a degenerate window
`work_end = work_start = 600`, the function returns null instead of raising:
the configuration error is not raised "whenever `work_end <= work_start`". -/
theorem business_clock_no_raise_counterexample :
    (600 : ℤ) ≤ 600 ∧
    businessSecondsBetween 10 0 600 600 = .ok none ∧
    ¬ ∃ msg, businessSecondsBetween 10 0 600 600 = .error msg := by
  refine ⟨by decide, rfl, ?_⟩
  rintro ⟨msg, h⟩
  rw [show businessSecondsBetween 10 0 600 600 = .ok none from rfl] at h
  exact Except.noConfusion h

/-- C3.  For `start <= end` and a valid window, the business clock returns
the sum over the calendar days from `start.date()` to `end.date()`
inclusive of the positive overlap of `[start, end]` with each day's
`[work_start, work_end]` window; the total is non-negative; a span inside a
single day's window yields exactly `end - start`; a span with no positive
overlap yields `0`; and a span crossing midnight from one day's window into
the next day's window yields the sum of the two in-window segments. -/
theorem business_seconds_clipping (s e ws we : ℤ) (hse : s ≤ e) (hw : ws < we) :
    (businessSecondsBetween s e ws we =
      .ok (some (∑ d ∈ Finset.Icc (dateOf s) (dateOf e),
        max 0 (min e (86400 * d + we) - max s (86400 * d + ws))))) ∧
    (0 ≤ ∑ d ∈ Finset.Icc (dateOf s) (dateOf e),
        max 0 (min e (86400 * d + we) - max s (86400 * d + ws))) ∧
    (dateOf s = dateOf e → 86400 * dateOf s + ws ≤ s → e ≤ 86400 * dateOf s + we →
      businessSecondsBetween s e ws we = .ok (some (e - s))) ∧
    ((∀ d, min e (86400 * d + we) ≤ max s (86400 * d + ws)) →
      businessSecondsBetween s e ws we = .ok (some 0)) ∧
    (0 ≤ ws → we ≤ 86400 → dateOf e = dateOf s + 1 →
      86400 * dateOf s + ws ≤ s → s ≤ 86400 * dateOf s + we →
      86400 * dateOf e + ws ≤ e → e ≤ 86400 * dateOf e + we →
      businessSecondsBetween s e ws we =
        .ok (some ((86400 * dateOf s + we - s) + (e - (86400 * dateOf e + ws))))) := by
  have hmain := businessSeconds_eq_sum s e ws we hse hw
  rw [daySeconds_sum_posPart] at hmain
  refine ⟨hmain, ?_, ?_, ?_, ?_⟩
  · exact Finset.sum_nonneg (fun d _ => le_max_left 0 _)
  · intro hd hs he
    rw [hmain, ← daySeconds_sum_posPart, daySeconds_single s e ws we hse hd hs he]
  · intro h
    rw [hmain, ← daySeconds_sum_posPart, daySeconds_outside s e ws we h]
  · intro hws hwe hd hs1 hs2 he1 he2
    rw [hmain, ← daySeconds_sum_posPart,
      daySeconds_cross_midnight s e ws we hws hwe hd hs1 hs2 he1 he2]

/-- Witness for C3 at a concrete in-window span: 10:00:00 to 10:01:40 of
day 0 under the window 10:00-23:00 gives exactly 100 seconds. -/
theorem business_seconds_clipping_witness :
    businessSecondsBetween 36000 36100 36000 82800 = .ok (some (36100 - 36000)) :=
  (business_seconds_clipping 36000 36100 36000 82800 (by decide) (by decide)).2.2.1
    (by decide) (by decide) (by decide)

theorem min?_mem_le {l : List ℤ} {a : ℤ} (h : l.min? = some a) :
    a ∈ l ∧ ∀ b ∈ l, a ≤ b :=
  (List.min?_eq_some_iff le_refl min_choice (fun _ _ _ => le_min_iff)).mp h

theorem max?_mem_ge {l : List ℤ} {a : ℤ} (h : l.max? = some a) :
    a ∈ l ∧ ∀ b ∈ l, b ≤ a :=
  (List.max?_eq_some_iff le_refl max_choice (fun _ _ _ => max_le_iff)).mp h

/-- On a `≤`-sorted list, `find?` for `fi ≤ ·` returns the least element
that is at least `fi`. -/
theorem find?_ge_isLeast {fi : ℤ} :
    ∀ {l : List ℤ}, List.Sorted (· ≤ ·) l →
    ∀ {x : ℤ}, l.find? (fun t => decide (fi ≤ t)) = some x →
    x ∈ l ∧ fi ≤ x ∧ ∀ u ∈ l, fi ≤ u → x ≤ u := by
  intro l
  induction l with
  | nil =>
    intro _ x h
    simp at h
  | cons a rest ih =>
    intro hs x h
    by_cases hfa : fi ≤ a
    · have hx : x = a := by
        rw [List.find?_cons_of_pos _ (by simpa using hfa)] at h
        exact (Option.some.inj h).symm
      subst hx
      refine ⟨List.mem_cons_self _ _, hfa, ?_⟩
      intro u hu _
      rcases List.mem_cons.mp hu with rfl | hu2
      · exact le_refl _
      · exact List.rel_of_sorted_cons hs u hu2
    · rw [List.find?_cons_of_neg _ (by simpa using hfa)] at h
      obtain ⟨hmem, hge, hmin⟩ := ih hs.of_cons h
      refine ⟨List.mem_cons_of_mem _ hmem, hge, ?_⟩
      intro u hu hfu
      rcases List.mem_cons.mp hu with rfl | hu2
      · exact absurd hfu hfa
      · exact hmin u hu2 hfu

/-- C5.  `first_outbound_at` is the least outbound timestamp at or after
`first_inbound_at`; it is null when there is no inbound timestamp, and null
when every outbound timestamp is strictly before the first inbound one. -/
theorem first_outbound_selection (msgs : List AMsg) :
    (∀ t, firstOutboundAt msgs = some t →
      t ∈ outboundTimes msgs ∧
      ∃ fi, firstInboundAt msgs = some fi ∧ fi ≤ t ∧
        ∀ u ∈ outboundTimes msgs, fi ≤ u → t ≤ u) ∧
    (firstInboundAt msgs = none → firstOutboundAt msgs = none) ∧
    (∀ fi, firstInboundAt msgs = some fi →
      (∀ u ∈ outboundTimes msgs, u < fi) → firstOutboundAt msgs = none) := by
  refine ⟨?_, ?_, ?_⟩
  · intro t ht
    unfold firstOutboundAt firstOutboundOf at ht
    unfold firstInboundAt firstInboundOf
    cases hfi : (inboundTimes msgs).min? with
    | none =>
      rw [hfi] at ht
      exact absurd ht (by simp)
    | some fi =>
      rw [hfi] at ht
      have hsorted : List.Sorted (· ≤ ·) ((outboundTimes msgs).insertionSort (· ≤ ·)) :=
        List.sorted_insertionSort _ _
      obtain ⟨hmem, hge, hmin⟩ := find?_ge_isLeast hsorted ht
      exact ⟨(List.mem_insertionSort _).mp hmem, fi, rfl, hge,
        fun u hu hfu => hmin u ((List.mem_insertionSort _).mpr hu) hfu⟩
  · intro h
    unfold firstInboundAt firstInboundOf at h
    unfold firstOutboundAt firstOutboundOf
    rw [h]
  · intro fi hfi hlt
    unfold firstInboundAt firstInboundOf at hfi
    unfold firstOutboundAt firstOutboundOf
    rw [hfi]
    rw [List.find?_eq_none]
    intro x hx
    simp only [decide_eq_true_eq]
    exact not_le.mpr (hlt x ((List.mem_insertionSort _).mp hx))

/-- Witness for C5: with an outbound at 5 before the first inbound at 10
and outbounds at 25 and 40 after it, the selected first outbound is 25. -/
theorem first_outbound_selection_witness :
    firstOutboundAt
      [⟨"out", some 5, "hi"⟩, ⟨"in", some 10, "q"⟩, ⟨"out", some 25, "a"⟩, ⟨"out", some 40, "b"⟩] =
      some 25 ∧
    (25 ∈ outboundTimes
      [⟨"out", some 5, "hi"⟩, ⟨"in", some 10, "q"⟩, ⟨"out", some 25, "a"⟩, ⟨"out", some 40, "b"⟩] ∧
     ∃ fi, firstInboundAt
      [⟨"out", some 5, "hi"⟩, ⟨"in", some 10, "q"⟩, ⟨"out", some 25, "a"⟩, ⟨"out", some 40, "b"⟩] =
        some fi ∧ fi ≤ 25 ∧
      ∀ u ∈ outboundTimes
        [⟨"out", some 5, "hi"⟩, ⟨"in", some 10, "q"⟩, ⟨"out", some 25, "a"⟩, ⟨"out", some 40, "b"⟩],
        fi ≤ u → 25 ≤ u) :=
  ⟨by decide,
   (first_outbound_selection
     [⟨"out", some 5, "hi"⟩, ⟨"in", some 10, "q"⟩, ⟨"out", some 25, "a"⟩, ⟨"out", some 40, "b"⟩]).1
     25 (by decide)⟩

/-- C6.  `unanswered_inbound` equals the count of inbound messages with a
parseable timestamp strictly after `last_outbound_at`, or the count of all
timestamped inbound messages when there is no outbound timestamp; in
particular inbound at 10, 20, 30 against a single outbound at 25 gives 1. -/
theorem unanswered_inbound_spec :
    (∀ msgs : List AMsg, unansweredInbound msgs = unansweredSpec msgs) ∧
    unansweredInbound
      [⟨"in", some 10, ""⟩, ⟨"in", some 20, ""⟩, ⟨"in", some 30, ""⟩, ⟨"out", some 25, ""⟩] = 1 := by
  constructor
  · intro msgs
    unfold unansweredInbound unansweredOf unansweredSpec
    cases hIn : (inboundTimes msgs).max? with
    | none =>
      have hnil : inboundTimes msgs = [] := List.max?_eq_none_iff.mp hIn
      rw [hnil]
      cases (outboundTimes msgs).max? <;> simp
    | some li =>
      cases hOut : (outboundTimes msgs).max? with
      | none => rfl
      | some lo =>
        dsimp only
        by_cases hlt : lo < li
        · rw [if_pos hlt]
        · rw [if_neg hlt]
          have hb := (max?_mem_ge hIn).2
          have hfil : (inboundTimes msgs).filter (fun t => decide (lo < t)) = [] := by
            rw [List.filter_eq_nil_iff]
            intro t ht
            simp only [decide_eq_true_eq]
            have := hb t ht
            omega
          rw [hfil]
          rfl
  · decide

theorem forall2_filter_dir {l₁ l₂ : List AMsg} (d : String)
    (h : List.Forall₂ (fun a b => a.direction = b.direction ∧ a.sentAt = b.sentAt) l₁ l₂) :
    List.Forall₂ (fun a b => a.direction = b.direction ∧ a.sentAt = b.sentAt)
      (l₁.filter (fun m => m.direction = d)) (l₂.filter (fun m => m.direction = d)) := by
  induction h with
  | nil => exact List.Forall₂.nil
  | cons h1 h2 ih =>
    rename_i a b t₁ t₂
    by_cases hd : a.direction = d
    · rw [List.filter_cons_of_pos (by simpa using hd),
        List.filter_cons_of_pos (by simp [← h1.1, hd])]
      exact List.Forall₂.cons h1 ih
    · rw [List.filter_cons_of_neg (by simpa using hd),
        List.filter_cons_of_neg (by simp [← h1.1, hd])]
      exact ih

theorem forall2_sentAt_filterMap {l₁ l₂ : List AMsg}
    (h : List.Forall₂ (fun a b => a.direction = b.direction ∧ a.sentAt = b.sentAt) l₁ l₂) :
    l₁.filterMap (fun m => m.sentAt) = l₂.filterMap (fun m => m.sentAt) := by
  induction h with
  | nil => rfl
  | cons h1 h2 ih => simp only [List.filterMap_cons, h1.2, ih]

/-- C9.  The advice computation of `compute_chat_metrics` reads the text of
at most the first six outbound and first six inbound messages: two message
lists that agree pointwise on direction and timestamp and agree on those
text prefixes produce identical advice. -/
theorem advice_reads_first_six_texts (msgs₁ msgs₂ : List AMsg) (ws we slowSec : ℤ)
    (hR : List.Forall₂ (fun a b => a.direction = b.direction ∧ a.sentAt = b.sentAt) msgs₁ msgs₂)
    (hIn : ((inboundMsgs msgs₁).map (fun m => m.text)).take 6 =
           ((inboundMsgs msgs₂).map (fun m => m.text)).take 6)
    (hOut : ((outboundMsgs msgs₁).map (fun m => m.text)).take 6 =
            ((outboundMsgs msgs₂).map (fun m => m.text)).take 6) :
    computeChatAdvice msgs₁ ws we slowSec = computeChatAdvice msgs₂ ws we slowSec := by
  have hfIn := forall2_filter_dir "in" hR
  have hfOut := forall2_filter_dir "out" hR
  have hInT : inboundTimes msgs₁ = inboundTimes msgs₂ := forall2_sentAt_filterMap hfIn
  have hOutT : outboundTimes msgs₁ = outboundTimes msgs₂ := forall2_sentAt_filterMap hfOut
  have hInLen : (inboundMsgs msgs₁).length = (inboundMsgs msgs₂).length := hfIn.length_eq
  have hOutLen : (outboundMsgs msgs₁).length = (outboundMsgs msgs₂).length := hfOut.length_eq
  unfold computeChatAdvice firstResponseSecE firstInboundAt firstOutboundAt
    unansweredInbound textOut6 textIn6
  rw [hInT, hOutT, hInLen, hOutLen, hIn, hOut]

/-- Witness for C9: two chats differing only in the text of the seventh
outbound message produce the same advice. -/
theorem advice_reads_first_six_texts_witness :
    computeChatAdvice
      [⟨"in", some 10, "Цена?"⟩, ⟨"out", some 20, "t1"⟩, ⟨"out", some 30, "t2"⟩,
       ⟨"out", some 40, "t3"⟩, ⟨"out", some 50, "t4"⟩, ⟨"out", some 60, "t5"⟩,
       ⟨"out", some 70, "t6"⟩, ⟨"out", some 80, "seventh text A"⟩] 0 86400 600 =
    computeChatAdvice
      [⟨"in", some 10, "Цена?"⟩, ⟨"out", some 20, "t1"⟩, ⟨"out", some 30, "t2"⟩,
       ⟨"out", some 40, "t3"⟩, ⟨"out", some 50, "t4"⟩, ⟨"out", some 60, "t5"⟩,
       ⟨"out", some 70, "t6"⟩, ⟨"out", some 80, "seventh text B"⟩] 0 86400 600 :=
  advice_reads_first_six_texts _ _ 0 86400 600
    (by refine List.Forall₂.cons (by exact ⟨rfl, rfl⟩) ?_
        refine List.Forall₂.cons (by exact ⟨rfl, rfl⟩) ?_
        refine List.Forall₂.cons (by exact ⟨rfl, rfl⟩) ?_
        refine List.Forall₂.cons (by exact ⟨rfl, rfl⟩) ?_
        refine List.Forall₂.cons (by exact ⟨rfl, rfl⟩) ?_
        refine List.Forall₂.cons (by exact ⟨rfl, rfl⟩) ?_
        refine List.Forall₂.cons (by exact ⟨rfl, rfl⟩) ?_
        refine List.Forall₂.cons (by exact ⟨rfl, rfl⟩) ?_
        exact List.Forall₂.nil)
    (by decide) (by decide)

/-- C10.  A stored `first_response_sec` equal to 0 is treated as "no first
reply": it contributes nothing to the per-manager first-reply sample and
the chat enters neither the slow-reply nor the good candidate set, because
each of those filters requires `fr > 0`. -/
theorem zero_first_response_excluded (c : ChatRow) (rest : List (Option ℤ))
    (l : List ChatRow) (h : c.frStored = some 0) :
    sampleContrib c.frStored = [] ∧
    firstReplySample (c.frStored :: rest) = firstReplySample rest ∧
    slowCand c = none ∧
    goodCand c = none ∧
    candSlowList (c :: l) = candSlowList l ∧
    candGoodList (c :: l) = candGoodList l := by
  have hsample : sampleContrib c.frStored = [] := by
    rw [h]
    rfl
  have hslow : slowCand c = none := by
    unfold slowCand
    rw [h]
    rfl
  have hgood : goodCand c = none := by
    unfold goodCand
    rw [h]
    split
    · rfl
    · rfl
  refine ⟨hsample, ?_, hslow, hgood, ?_, ?_⟩
  · unfold firstReplySample
    rw [List.map_cons, hsample]
    rfl
  · unfold candSlowList
    rw [List.filterMap_cons, hslow]
  · unfold candGoodList
    rw [List.filterMap_cons, hgood]

/-- Witness for C10 at a concrete chat whose stored first response is 0. -/
theorem zero_first_response_excluded_witness :
    (⟨"c0", some 0, false, []⟩ : ChatRow).frStored = some 0 ∧
    (sampleContrib (⟨"c0", some 0, false, []⟩ : ChatRow).frStored = [] ∧
     firstReplySample ((⟨"c0", some 0, false, []⟩ : ChatRow).frStored :: [some 5]) =
       firstReplySample [some 5] ∧
     slowCand ⟨"c0", some 0, false, []⟩ = none ∧
     goodCand ⟨"c0", some 0, false, []⟩ = none ∧
     candSlowList [⟨"c0", some 0, false, []⟩] = candSlowList [] ∧
     candGoodList [⟨"c0", some 0, false, []⟩] = candGoodList []) :=
  ⟨rfl, zero_first_response_excluded ⟨"c0", some 0, false, []⟩ [some 5] [] rfl⟩

theorem goodCand_inv {c : ChatRow} {e : String × ℤ × String × String}
    (h : goodCand c = some e) :
    e.1 = c.cid ∧ respondedB c.msgs = true ∧ nextStepB c.msgs = true ∧
    1 ≤ questionsOf c.msgs ∧
    ∃ fr, c.frStored = some fr ∧ 0 < fr ∧ fr ≤ 600 ∧ e.2.1 = 600 - fr := by
  unfold goodCand at h
  split at h
  · rename_i hg
    cases hfr : c.frStored with
    | none =>
      rw [hfr] at h
      exact absurd h (by simp)
    | some fr =>
      rw [hfr] at h
      dsimp only at h
      by_cases hfr2 : 0 < fr ∧ fr ≤ 600
      · rw [if_pos hfr2] at h
        cases h
        exact ⟨rfl, hg.1, hg.2.1, hg.2.2, fr, rfl, hfr2.1, hfr2.2, rfl⟩
      · rw [if_neg hfr2] at h
        exact absurd h (by simp)
  · exact absurd h (by simp)

/-- C8 (amended).  Per manager the `good` example category holds at most 3
chats; each selected entry comes from a chat of that manager satisfying all
gates — responded, next-step cue in the last outbound text, at least one
question, and a stored first response with `0 < fr <= 600` seconds (the
code admits exactly 10 minutes, see the counterexample) — scored
`600 - fr`; and the entries are ordered by that score descending. -/
theorem good_examples_gates_and_ranking (l : List ChatRow) :
    (topGood l).length ≤ 3 ∧
    List.Sorted (fun x y : ℤ => x ≥ y) ((topGood l).map (fun e => e.2.1)) ∧
    ∀ e ∈ topGood l, ∃ c ∈ l,
      e.1 = c.cid ∧ respondedB c.msgs = true ∧ nextStepB c.msgs = true ∧
      1 ≤ questionsOf c.msgs ∧
      ∃ fr, c.frStored = some fr ∧ 0 < fr ∧ fr ≤ 600 ∧ e.2.1 = 600 - fr := by
  refine ⟨?_, ?_, ?_⟩
  · unfold topGood pickTop3
    simp [List.length_take]
  · have hsorted : List.Sorted scoreGE ((candGoodList l).insertionSort scoreGE) :=
      List.sorted_insertionSort scoreGE (candGoodList l)
    have htake : List.Sorted scoreGE (topGood l) :=
      List.Pairwise.sublist (List.take_sublist 3 _) hsorted
    exact htake.map _ (fun a b hab => hab)
  · intro e he
    have hmem : e ∈ candGoodList l := by
      have h1 : e ∈ (candGoodList l).insertionSort scoreGE :=
        (List.take_sublist 3 _).mem he
      exact (List.mem_insertionSort scoreGE).mp h1
    obtain ⟨c, hc, hgc⟩ := List.mem_filterMap.mp hmem
    exact ⟨c, hc, goodCand_inv hgc⟩

/-- C8 (counterexample).  A chat whose stored first response is exactly 600
seconds — 10 minutes, which is not "< 10 min" — passes the `fr <= 10 * 60`
gate and is selected into the `good` category with score 0. -/
theorem good_boundary_counterexample :
    goodCand ⟨"c1", some 600, false, [⟨none, "out", "5", "TEXT", "user", "Оформим заказ?"⟩]⟩ =
      some ("c1", 0, "", "Оформим заказ?") ∧
    topGood [⟨"c1", some 600, false, [⟨none, "out", "5", "TEXT", "user", "Оформим заказ?"⟩]⟩] =
      [("c1", 0, "", "Оформим заказ?")] ∧
    ¬ ((600 : ℤ) < 600) := by
  refine ⟨by decide, by decide, by decide⟩

/-- Witness for C8 at a concrete manager list with one qualifying chat. -/
theorem good_examples_gates_witness :
    ∃ c ∈ [(⟨"c2", some 300, false,
        [⟨none, "out", "5", "TEXT", "user", "Оформим заказ?"⟩]⟩ : ChatRow)],
      (("c2", 300, "", "Оформим заказ?") : String × ℤ × String × String).1 = c.cid ∧
      respondedB c.msgs = true ∧ nextStepB c.msgs = true ∧
      1 ≤ questionsOf c.msgs ∧
      ∃ fr, c.frStored = some fr ∧ 0 < fr ∧ fr ≤ 600 ∧
        (("c2", 300, "", "Оформим заказ?") : String × ℤ × String × String).2.1 = 600 - fr :=
  (good_examples_gates_and_ranking
    [⟨"c2", some 300, false, [⟨none, "out", "5", "TEXT", "user", "Оформим заказ?"⟩]⟩]).2.2
    ("c2", 300, "", "Оформим заказ?") (by decide)

theorem snippet_step (m : DMsg) (rest : List DMsg) (i o i2 o2 : String)
    (hi2 : i2 = i ∨ i2 = redactText m.text)
    (ho2 : o2 = o ∨ o2 = redactText m.text)
    (ihi : (chatSnippetAux rest i2 o2).1 = i2 ∨
      ∃ m2 ∈ rest, (chatSnippetAux rest i2 o2).1 = redactText m2.text)
    (iho : (chatSnippetAux rest i2 o2).2 = o2 ∨
      ∃ m2 ∈ rest, (chatSnippetAux rest i2 o2).2 = redactText m2.text) :
    ((if i2 ≠ "" ∧ o2 ≠ "" then (i2, o2) else chatSnippetAux rest i2 o2).1 = i ∨
      ∃ m2 ∈ m :: rest,
        (if i2 ≠ "" ∧ o2 ≠ "" then (i2, o2) else chatSnippetAux rest i2 o2).1 =
          redactText m2.text) ∧
    ((if i2 ≠ "" ∧ o2 ≠ "" then (i2, o2) else chatSnippetAux rest i2 o2).2 = o ∨
      ∃ m2 ∈ m :: rest,
        (if i2 ≠ "" ∧ o2 ≠ "" then (i2, o2) else chatSnippetAux rest i2 o2).2 =
          redactText m2.text) := by
  have promote : ∀ (x acc tgt : String),
      (x = acc ∨ ∃ m2 ∈ rest, x = redactText m2.text) →
      (acc = tgt ∨ acc = redactText m.text) →
      (x = tgt ∨ ∃ m2 ∈ m :: rest, x = redactText m2.text) := by
    intro x acc tgt hx h2
    rcases hx with h | ⟨m2, hm2, h⟩
    · rcases h2 with h2 | h2
      · exact Or.inl (h.trans h2)
      · exact Or.inr ⟨m, List.mem_cons_self _ _, h.trans h2⟩
    · exact Or.inr ⟨m2, List.mem_cons_of_mem _ hm2, h⟩
  split
  · exact ⟨promote i2 i2 i (Or.inl rfl) hi2, promote o2 o2 o (Or.inl rfl) ho2⟩
  · exact ⟨promote _ i2 i ihi hi2, promote _ o2 o iho ho2⟩

set_option maxHeartbeats 1000000 in
theorem chatSnippetAux_origin :
    ∀ (l : List DMsg) (i o : String),
    ((chatSnippetAux l i o).1 = i ∨ ∃ m ∈ l, (chatSnippetAux l i o).1 = redactText m.text) ∧
    ((chatSnippetAux l i o).2 = o ∨ ∃ m ∈ l, (chatSnippetAux l i o).2 = redactText m.text) := by
  intro l
  induction l with
  | nil =>
    intro i o
    exact ⟨Or.inl rfl, Or.inl rfl⟩
  | cons m rest ih =>
    intro i o
    simp only [chatSnippetAux]
    refine snippet_step m rest i o _ _ ?_ ?_ (ih _ _).1 (ih _ _).2
    · split
      · exact Or.inr rfl
      · exact Or.inl rfl
    · split
      · exact Or.inr rfl
      · exact Or.inl rfl

set_option maxHeartbeats 4000000 in
/-- C7 (amended).  Every redaction output is truncated to at most 220
characters; every `snippet_in`/`snippet_out` is either empty or the
redaction of some message text of the chat; and on the spec's concrete
example the output is `"Call me at +***or email [email]"`, which contains
no run of 5 digits (indeed no digits), does not contain the email address,
and fits the length bound.  Word-internal digit runs, however, are not
replaced (see the counterexample), so the universal "output contains no run
of 5 or more digits" holds only for word-bounded runs. -/
theorem redaction_truncation_and_snippets :
    (∀ s : String, (redactText s).length ≤ 220) ∧
    (∀ msgs : List DMsg,
      ((chatSnippet msgs).1 = "" ∨ ∃ m ∈ msgs, (chatSnippet msgs).1 = redactText m.text) ∧
      ((chatSnippet msgs).2 = "" ∨ ∃ m ∈ msgs, (chatSnippet msgs).2 = redactText m.text)) ∧
    redactText "Call me at +7 999 123 45 67 or email a@b.com" =
      "Call me at +***or email [email]" ∧
    hasDigitRun 5 (redactText "Call me at +7 999 123 45 67 or email a@b.com").data = false ∧
    ¬ ("a@b.com".data <:+:
      (redactText "Call me at +7 999 123 45 67 or email a@b.com").data) ∧
    (redactText "Call me at +7 999 123 45 67 or email a@b.com").length ≤ 220 := by
  have hgen : ∀ l : List Char, (String.mk (l.take 220)).length ≤ 220 := by
    intro l
    show (l.take 220).length ≤ 220
    simp [List.length_take]
  refine ⟨?_, ?_, by decide, by decide, by decide, by decide⟩
  · intro s
    exact hgen _
  · intro msgs
    exact chatSnippetAux_origin msgs "" ""

/-- C7 (counterexample).  The long-digit pattern `\b\d{5,}\b` requires word
boundaries, so a 5-digit run embedded in a word survives redaction: the
output of `"a12345b"` still contains a run of 5 digits, refuting "the
output contains no run of 5 or more digits" as universally stated. -/
theorem redaction_digit_run_counterexample :
    redactText "a12345b" = "a12345b" ∧
    hasDigitRun 5 (redactText "a12345b").data = true := by
  refine ⟨by decide, by decide⟩

theorem deltaField_none (x : Option ℚ) (k : String) : deltaField x none k = none := by
  unfold deltaField
  cases x <;> rfl

theorem baselineStep_none {cutoff : ℤ} {mid : String} {acc : Option HistRow} {r0 : HistRow}
    (h : baselineStep cutoff mid acc r0 = none) :
    acc = none ∧ (r0.mid = mid → ∀ t0, r0.ts = some t0 → cutoff < t0) := by
  unfold baselineStep at h
  cases hts : r0.ts with
  | none =>
    rw [hts] at h
    refine ⟨h, fun _ t0 ht0 => ?_⟩
    exact Option.noConfusion ht0
  | some t0 =>
    rw [hts] at h
    dsimp only at h
    by_cases hc : cutoff < t0
    · rw [if_pos hc] at h
      refine ⟨h, fun _ t0' ht0' => ?_⟩
      cases Option.some.inj ht0'
      exact hc
    · rw [if_neg hc] at h
      by_cases hm : r0.mid = mid
      · rw [if_pos hm] at h
        rcases hae : acc with _ | b
        · rw [hae] at h
          exact absurd h (by simp)
        · rw [hae] at h
          dsimp only at h
          rcases hbts : b.ts with _ | bts
          · rw [hbts] at h
            exact absurd h (by simp)
          · rw [hbts] at h
            dsimp only at h
            split at h <;> exact absurd h (by simp)
      · rw [if_neg hm] at h
        exact ⟨h, fun hm2 => absurd hm2 hm⟩

theorem baselineStep_some {cutoff : ℤ} {mid : String} {acc : Option HistRow} {r0 b : HistRow}
    (hacc : ∀ b2, acc = some b2 → b2.mid = mid ∧ ∃ tb, b2.ts = some tb ∧ tb ≤ cutoff)
    (h : baselineStep cutoff mid acc r0 = some b) :
    (b.mid = mid ∧ ∃ tb, b.ts = some tb ∧ tb ≤ cutoff) ∧
    (acc = some b ∨ b = r0) ∧
    (∀ b2 tb2, acc = some b2 → b2.ts = some tb2 → ∃ tb, b.ts = some tb ∧ tb2 ≤ tb) ∧
    (r0.mid = mid → ∀ t0, r0.ts = some t0 → t0 ≤ cutoff →
      ∃ tb, b.ts = some tb ∧ t0 ≤ tb) := by
  unfold baselineStep at h
  cases hts : r0.ts with
  | none =>
    rw [hts] at h
    refine ⟨hacc b h, Or.inl h, ?_, ?_⟩
    · intro b2 tb2 hb2 htb2
      cases Option.some.inj (h.symm.trans hb2)
      exact ⟨tb2, htb2, le_refl _⟩
    · intro _ t0 ht0
      exact Option.noConfusion ht0
  | some t0 =>
    rw [hts] at h
    dsimp only at h
    by_cases hc : cutoff < t0
    · rw [if_pos hc] at h
      refine ⟨hacc b h, Or.inl h, ?_, ?_⟩
      · intro b2 tb2 hb2 htb2
        cases Option.some.inj (h.symm.trans hb2)
        exact ⟨tb2, htb2, le_refl _⟩
      · intro _ t0' ht0' hle
        cases Option.some.inj ht0'
        omega
    · rw [if_neg hc] at h
      by_cases hm : r0.mid = mid
      · rw [if_pos hm] at h
        cases hae : acc with
        | none =>
          rw [hae] at h
          cases Option.some.inj h
          refine ⟨⟨hm, t0, hts, by omega⟩, Or.inr rfl, ?_, ?_⟩
          · intro b2 tb2 hb2 _
            exact Option.noConfusion hb2
          · intro _ t0' ht0' _
            cases Option.some.inj ht0'
            exact ⟨t0, hts, le_refl _⟩
        | some bold =>
          rw [hae] at h
          dsimp only at h
          obtain ⟨hbm, tbold, htbold, htble⟩ := hacc bold hae
          rw [htbold] at h
          dsimp only at h
          by_cases hlt : tbold < t0
          · rw [if_pos hlt] at h
            cases Option.some.inj h
            refine ⟨⟨hm, t0, hts, by omega⟩, Or.inr rfl, ?_, ?_⟩
            · intro b2 tb2 hb2 htb2
              cases Option.some.inj hb2
              cases Option.some.inj (htbold.symm.trans htb2)
              exact ⟨t0, hts, by omega⟩
            · intro _ t0' ht0' _
              cases Option.some.inj ht0'
              exact ⟨t0, hts, le_refl _⟩
          · rw [if_neg hlt] at h
            cases Option.some.inj h
            refine ⟨⟨hbm, tbold, htbold, htble⟩, Or.inl rfl, ?_, ?_⟩
            · intro b2 tb2 hb2 htb2
              cases Option.some.inj hb2
              cases Option.some.inj (htbold.symm.trans htb2)
              exact ⟨tbold, htbold, le_refl _⟩
            · intro _ t0' ht0' _
              cases Option.some.inj ht0'
              exact ⟨tbold, htbold, by omega⟩
      · rw [if_neg hm] at h
        refine ⟨hacc b h, Or.inl h, ?_, ?_⟩
        · intro b2 tb2 hb2 htb2
          cases Option.some.inj (h.symm.trans hb2)
          exact ⟨tb2, htb2, le_refl _⟩
        · intro hm2 _ _ _
          exact absurd hm2 hm

theorem baseline_fold_spec (cutoff : ℤ) (mid : String) :
    ∀ (rows : List HistRow) (acc : Option HistRow),
    (∀ b, acc = some b → b.mid = mid ∧ ∃ tb, b.ts = some tb ∧ tb ≤ cutoff) →
    (∀ r, rows.foldl (baselineStep cutoff mid) acc = some r →
       (r.mid = mid ∧ ∃ ts, r.ts = some ts ∧ ts ≤ cutoff) ∧
       (acc = some r ∨ r ∈ rows) ∧
       (∀ b tb, acc = some b → b.ts = some tb → ∃ ts, r.ts = some ts ∧ tb ≤ ts) ∧
       (∀ ts, r.ts = some ts → ∀ r2 ∈ rows, r2.mid = mid →
          ∀ ts2, r2.ts = some ts2 → ts2 ≤ cutoff → ts2 ≤ ts)) ∧
    (rows.foldl (baselineStep cutoff mid) acc = none → acc = none ∧
       ∀ r2 ∈ rows, r2.mid = mid → ∀ ts2, r2.ts = some ts2 → cutoff < ts2) := by
  intro rows
  induction rows with
  | nil =>
    intro acc hacc
    constructor
    · intro r h
      refine ⟨hacc r h, Or.inl h, ?_, ?_⟩
      · intro b tb hb htb
        cases Option.some.inj (h.symm.trans hb)
        exact ⟨tb, htb, le_refl _⟩
      · intro ts _ r2 hr2
        exact absurd hr2 (List.not_mem_nil r2)
    · intro h
      exact ⟨h, fun r2 hr2 => absurd hr2 (List.not_mem_nil r2)⟩
  | cons r0 rest ih =>
    intro acc hacc
    rw [List.foldl_cons]
    by_cases hstep : ∃ b1, baselineStep cutoff mid acc r0 = some b1
    · obtain ⟨b1, hb1⟩ := hstep
      have hs := baselineStep_some hacc hb1
      have hacc1 : ∀ b, some b1 = some b →
          b.mid = mid ∧ ∃ tb, b.ts = some tb ∧ tb ≤ cutoff := by
        intro b hb
        cases Option.some.inj hb
        exact hs.1
      obtain ⟨ihsome, ihnone⟩ := ih (baselineStep cutoff mid acc r0) (by rw [hb1]; exact hacc1)
      constructor
      · intro r h
        obtain ⟨hq, hprov, hmono, hdom⟩ := ihsome r h
        refine ⟨hq, ?_, ?_, ?_⟩
        · rcases hprov with hp | hp
          · rw [hb1] at hp
            cases Option.some.inj hp
            rcases hs.2.1 with hp2 | hp2
            · exact Or.inl hp2
            · exact Or.inr (by rw [hp2]; exact List.mem_cons_self _ _)
          · exact Or.inr (List.mem_cons_of_mem _ hp)
        · intro b tb hb htb
          obtain ⟨tb1, htb1, hle1⟩ := hs.2.2.1 b tb hb htb
          obtain ⟨ts, hts, hle2⟩ := hmono b1 tb1 hb1 htb1
          exact ⟨ts, hts, by omega⟩
        · intro ts hts r2 hr2 hm2 ts2 hts2 hle2
          rcases List.mem_cons.mp hr2 with rfl | hr2
          · obtain ⟨tb1, htb1, hle1⟩ := hs.2.2.2 hm2 ts2 hts2 hle2
            obtain ⟨ts', hts', hle3⟩ := hmono b1 tb1 hb1 htb1
            cases Option.some.inj (hts.symm.trans hts')
            omega
          · exact hdom ts hts r2 hr2 hm2 ts2 hts2 hle2
      · intro h
        obtain ⟨h1, _⟩ := ihnone h
        rw [hb1] at h1
        exact absurd h1 (by simp)
    · have hb1 : baselineStep cutoff mid acc r0 = none := by
        cases hv : baselineStep cutoff mid acc r0 with
        | none => rfl
        | some b1 => exact absurd ⟨b1, hv⟩ hstep
      have hn := baselineStep_none hb1
      obtain ⟨ihsome, ihnone⟩ := ih (baselineStep cutoff mid acc r0)
        (by rw [hb1]; intro b hb; exact Option.noConfusion hb)
      constructor
      · intro r h
        obtain ⟨hq, hprov, hmono, hdom⟩ := ihsome r h
        refine ⟨hq, ?_, ?_, ?_⟩
        · rcases hprov with hp | hp
          · rw [hb1] at hp
            exact Option.noConfusion hp
          · exact Or.inr (List.mem_cons_of_mem _ hp)
        · intro b tb hb htb
          rw [hn.1] at hb
          exact Option.noConfusion hb
        · intro ts hts r2 hr2 hm2 ts2 hts2 hle2
          rcases List.mem_cons.mp hr2 with rfl | hr2
          · exact absurd (hn.2 hm2 ts2 hts2) (by omega)
          · exact hdom ts hts r2 hr2 hm2 ts2 hts2 hle2
      · intro h
        obtain ⟨_, hrest⟩ := ihnone h
        refine ⟨hn.1, ?_⟩
        intro r2 hr2 hm2 ts2 hts2
        rcases List.mem_cons.mp hr2 with rfl | hr2
        · exact hn.2 hm2 ts2 hts2
        · exact hrest r2 hr2 hm2 ts2 hts2

/-- C2.  The delta baseline for a manager key is the history row with the
maximum `run_ts` among rows of that key with `run_ts <= now - 6 days`
(conjuncts 1 and 2); with snapshots at `T-10d`, `T-7d`, `T-3d`, `T-1d` and
`now = T` the `T-7d` snapshot is selected (conjunct 3); and when there is
no baseline every `delta_*` field of the row is empty (conjunct 4). -/
theorem baseline_selection_and_empty_deltas :
    (∀ (rows : List HistRow) (cutoff : ℤ) (mid : String) (r : HistRow),
      selectBaseline rows cutoff mid = some r →
      r ∈ rows ∧ r.mid = mid ∧ ∃ ts, r.ts = some ts ∧ ts ≤ cutoff ∧
        ∀ r2 ∈ rows, r2.mid = mid → ∀ ts2, r2.ts = some ts2 → ts2 ≤ cutoff → ts2 ≤ ts) ∧
    (∀ (rows : List HistRow) (cutoff : ℤ) (mid : String),
      selectBaseline rows cutoff mid = none ↔
      ∀ r2 ∈ rows, r2.mid = mid → ∀ ts2, r2.ts = some ts2 → cutoff < ts2) ∧
    (∀ (T : ℤ) (v10 v7 v3 v1 : List (String × Option ℚ)),
      selectBaseline
        [⟨"m", some (T - 864000), v10⟩, ⟨"m", some (T - 604800), v7⟩,
         ⟨"m", some (T - 259200), v3⟩, ⟨"m", some (T - 86400), v1⟩]
        (T - 518400) "m" = some ⟨"m", some (T - 604800), v7⟩) ∧
    (∀ (curVals : List (String × Option ℚ)) (kv : String × Option ℚ),
      kv ∈ deltaRow curVals none → kv.2 = none) := by
  have hspec := fun (cutoff : ℤ) (mid : String) (rows : List HistRow) =>
    baseline_fold_spec cutoff mid rows none (fun b hb => Option.noConfusion hb)
  refine ⟨?_, ?_, ?_, ?_⟩
  · intro rows cutoff mid r h
    obtain ⟨hq, hprov, _, hdom⟩ := (hspec cutoff mid rows).1 r h
    obtain ⟨ts, hts, htsle⟩ := hq.2
    refine ⟨?_, hq.1, ts, hts, htsle, hdom ts hts⟩
    rcases hprov with hp | hp
    · exact absurd hp (by simp)
    · exact hp
  · intro rows cutoff mid
    constructor
    · intro h
      exact ((hspec cutoff mid rows).2 h).2
    · intro h
      cases hv : selectBaseline rows cutoff mid with
      | none => rfl
      | some r =>
        obtain ⟨hq, hprov, _, _⟩ := (hspec cutoff mid rows).1 r hv
        obtain ⟨ts, hts, htsle⟩ := hq.2
        rcases hprov with hp | hp
        · exact absurd hp (by simp)
        · exact absurd (h r hp hq.1 ts hts) (by omega)
  · intro T v10 v7 v3 v1
    have h10 : baselineStep (T - 518400) "m" none ⟨"m", some (T - 864000), v10⟩ =
        some ⟨"m", some (T - 864000), v10⟩ := by
      unfold baselineStep
      dsimp only
      rw [if_neg (by omega), if_pos rfl]
    have h7 : baselineStep (T - 518400) "m" (some ⟨"m", some (T - 864000), v10⟩)
        ⟨"m", some (T - 604800), v7⟩ = some ⟨"m", some (T - 604800), v7⟩ := by
      unfold baselineStep
      dsimp only
      rw [if_neg (by omega), if_pos rfl, if_pos (by omega)]
    have h3 : baselineStep (T - 518400) "m" (some ⟨"m", some (T - 604800), v7⟩)
        ⟨"m", some (T - 259200), v3⟩ = some ⟨"m", some (T - 604800), v7⟩ := by
      unfold baselineStep
      dsimp only
      rw [if_pos (by omega)]
    have h1 : baselineStep (T - 518400) "m" (some ⟨"m", some (T - 604800), v7⟩)
        ⟨"m", some (T - 86400), v1⟩ = some ⟨"m", some (T - 604800), v7⟩ := by
      unfold baselineStep
      dsimp only
      rw [if_pos (by omega)]
    unfold selectBaseline
    rw [List.foldl_cons, h10, List.foldl_cons, h7, List.foldl_cons, h3,
      List.foldl_cons, h1, List.foldl_nil]
  · intro curVals kv hkv
    unfold deltaRow at hkv
    obtain ⟨k, _, heq⟩ := List.mem_map.mp hkv
    rw [← heq]
    show deltaField (match curVals.lookup k with | some v => v | none => none) none k = none
    exact deltaField_none _ _

/-- Witness for C2: a single qualifying history row is selected and is
maximal; and on a concrete current row with no baseline the delta cell
of the first tracked column is empty. -/
theorem baseline_selection_witness :
    ((⟨"m", some 10, []⟩ : HistRow) ∈ [(⟨"m", some 10, []⟩ : HistRow)] ∧
      (⟨"m", some 10, []⟩ : HistRow).mid = "m" ∧
      ∃ ts, (⟨"m", some 10, []⟩ : HistRow).ts = some ts ∧ ts ≤ 100 ∧
        ∀ r2 ∈ [(⟨"m", some 10, []⟩ : HistRow)], r2.mid = "m" →
          ∀ ts2, r2.ts = some ts2 → ts2 ≤ 100 → ts2 ≤ ts) ∧
    ("response_rate", (none : Option ℚ)).2 = none :=
  ⟨baseline_selection_and_empty_deltas.1 [⟨"m", some 10, []⟩] 100 "m" ⟨"m", some 10, []⟩ rfl,
   baseline_selection_and_empty_deltas.2.2.2 [] ("response_rate", none) (by decide)⟩
